import Mathlib

/-!
Verification of the session-authentication backend (`src/backend/src/index.ts`).

Strings of the JavaScript source are modelled as `List Char` (Unicode scalar
values).  The cookie codec, the percent-encoding built-ins it relies on
(`encodeURIComponent` / `decodeURIComponent`, including their URIError failure
modes, modelled by `Option`), the JWT sign/verify pair (modelled as an
invertible serialization of the claims together with the signing secret), the
argon2 credential check (modelled from the spec, the library is external), and
the three route handlers are embedded below, followed by the theorems.
-/

set_option maxRecDepth 100000

/-- JavaScript strings, modelled as lists of Unicode scalar values. -/
abbrev Str := List Char

/-- The characters removed by JavaScript `String.prototype.trim`
(ECMAScript WhiteSpace and LineTerminator code points). -/
def jsSpace (c : Char) : Bool :=
  c.toNat = 0x9 || c.toNat = 0xA || c.toNat = 0xB || c.toNat = 0xC ||
  c.toNat = 0xD || c.toNat = 0x20 || c.toNat = 0xA0 || c.toNat = 0x1680 ||
  (0x2000 ≤ c.toNat && c.toNat ≤ 0x200A) || c.toNat = 0x2028 ||
  c.toNat = 0x2029 || c.toNat = 0x202F || c.toNat = 0x205F ||
  c.toNat = 0x3000 || c.toNat = 0xFEFF

/-- Drop JS whitespace from the front of a string. -/
def trimLeft (s : Str) : Str := s.dropWhile jsSpace

/-- JavaScript `String.prototype.trim`: strip whitespace at both ends. -/
def jsTrim (s : Str) : Str := (trimLeft (trimLeft s).reverse).reverse

/-- JavaScript `String.prototype.split` with a single-character separator:
`"".split(sep)` is `[""]`, empty segments are kept. -/
def splitCh (sep : Char) : Str → List Str
  | [] => [[]]
  | c :: rest =>
    if c = sep then [] :: splitCh sep rest
    else
      match splitCh sep rest with
      | [] => [[c]]
      | r :: rs => (c :: r) :: rs

/-- JavaScript `Array.prototype.join` with a string separator. -/
def joinSep (sep : Str) : List Str → Str
  | [] => []
  | x :: xs =>
    match xs with
    | [] => x
    | _ :: _ => x ++ sep ++ joinSep sep xs

/-- The characters `encodeURIComponent` leaves unescaped:
`A-Z a-z 0-9 - _ . ! ~ *` and apostrophe and parentheses. -/
def uriUnreserved (c : Char) : Bool :=
  (0x30 ≤ c.toNat && c.toNat ≤ 0x39) ||   -- digits
  (0x41 ≤ c.toNat && c.toNat ≤ 0x5A) ||   -- uppercase letters
  (0x61 ≤ c.toNat && c.toNat ≤ 0x7A) ||   -- lowercase letters
  c.toNat = 0x2D || c.toNat = 0x5F || c.toNat = 0x2E || c.toNat = 0x21 ||
  c.toNat = 0x7E || c.toNat = 0x2A || c.toNat = 0x27 || c.toNat = 0x28 ||
  c.toNat = 0x29

/-- Uppercase hexadecimal digit for a value below 16. -/
def hexU (d : Nat) : Char :=
  if d < 10 then Char.ofNat (0x30 + d) else Char.ofNat (0x41 + (d - 10))

/-- Numeric value of a hexadecimal digit character (either case), if any. -/
def hexVal (c : Char) : Option Nat :=
  if 0x30 ≤ c.toNat ∧ c.toNat ≤ 0x39 then some (c.toNat - 0x30)
  else if 0x41 ≤ c.toNat ∧ c.toNat ≤ 0x46 then some (c.toNat - 0x41 + 10)
  else if 0x61 ≤ c.toNat ∧ c.toNat ≤ 0x66 then some (c.toNat - 0x61 + 10)
  else none

/-- UTF-8 encoding of a code point, as a list of byte values. -/
def utf8Bytes (n : Nat) : List Nat :=
  if n < 0x80 then [n]
  else if n < 0x800 then [0xC0 + n / 0x40, 0x80 + n % 0x40]
  else if n < 0x10000 then
    [0xE0 + n / 0x1000, 0x80 + (n / 0x40) % 0x40, 0x80 + n % 0x40]
  else
    [0xF0 + n / 0x40000, 0x80 + (n / 0x1000) % 0x40, 0x80 + (n / 0x40) % 0x40,
     0x80 + n % 0x40]

/-- A percent-escape `%XY` (uppercase hex) for one byte. -/
def pctByte (b : Nat) : Str := ['%', hexU (b / 16), hexU (b % 16)]

/-- Model of the JavaScript built-in `encodeURIComponent`: unreserved
characters pass through, every other character is UTF-8 encoded and each
byte written as an uppercase percent-escape. -/
def encodeURIChar (c : Char) : Str :=
  if uriUnreserved c then [c] else ((utf8Bytes c.toNat).map pctByte).flatten

def encodeURIComponent (s : Str) : Str := (s.map encodeURIChar).flatten

/-- Lexical item of a percent-encoded string: a literal character or an
escaped byte. -/
inductive PTok where
  | chr (c : Char)
  | byte (b : Nat)
deriving DecidableEq

/-- The token stream produced by scanning `encodeURIComponent s`. -/
def encPT (s : Str) : List PTok :=
  (s.map fun c =>
    if uriUnreserved c then [PTok.chr c]
    else (utf8Bytes c.toNat).map PTok.byte).flatten

/-- First phase of `decodeURIComponent`: replace each `%XY` escape by its
byte; a `%` not followed by two hex digits is a URIError (`none`). -/
def pctTokens : Str → Option (List PTok)
  | [] => some []
  | c :: rest =>
    if c = '%' then
      match rest with
      | c1 :: c2 :: rest2 =>
        match hexVal c1, hexVal c2 with
        | some h, some l => (pctTokens rest2).map (PTok.byte (16 * h + l) :: ·)
        | _, _ => none
      | _ => none
    else (pctTokens rest).map (PTok.chr c :: ·)

/-- Is `b` a UTF-8 continuation byte? -/
def utf8Cont (b : Nat) : Bool := 0x80 ≤ b && b < 0xC0

/-- Decode one UTF-8 sequence whose lead byte is `b`, taking continuation
bytes from the token stream; returns the code point and the remaining
stream, or `none` (URIError) for any byte sequence that is not valid UTF-8
(truncated sequences, overlong forms, surrogates, values above U+10FFFF). -/
def utf8Step (b : Nat) (rest : List PTok) : Option (Nat × Nat) :=
  if b < 0x80 then some (b, 0)
  else if b < 0xC2 then none
  else if b < 0xE0 then
    match rest with
    | PTok.byte b2 :: _ =>
      if utf8Cont b2 then some ((b - 0xC0) * 0x40 + (b2 - 0x80), 1)
      else none
    | _ => none
  else if b < 0xF0 then
    match rest with
    | PTok.byte b2 :: PTok.byte b3 :: _ =>
      if utf8Cont b2 && utf8Cont b3 then
        let v := (b - 0xE0) * 0x1000 + (b2 - 0x80) * 0x40 + (b3 - 0x80)
        if 0x800 ≤ v ∧ ¬(0xD800 ≤ v ∧ v < 0xE000) then some (v, 2)
        else none
      else none
    | _ => none
  else if b < 0xF5 then
    match rest with
    | PTok.byte b2 :: PTok.byte b3 :: PTok.byte b4 :: _ =>
      if utf8Cont b2 && utf8Cont b3 && utf8Cont b4 then
        let v := (b - 0xF0) * 0x40000 + (b2 - 0x80) * 0x1000 +
          (b3 - 0x80) * 0x40 + (b4 - 0x80)
        if 0x10000 ≤ v ∧ v < 0x110000 then some (v, 3)
        else none
      else none
    | _ => none
  else none

/-- Second phase of `decodeURIComponent`: assemble escaped bytes into code
points via `utf8Step` (which also says how many continuation bytes to
drop).  The fuel argument (instantiated with the stream length, which
bounds the number of steps) makes the recursion structural; it never runs
out. -/
def utf8DecodeAux : Nat → List PTok → Option Str
  | _, [] => some []
  | 0, _ :: _ => none
  | fuel + 1, PTok.chr c :: rest => (utf8DecodeAux fuel rest).map (c :: ·)
  | fuel + 1, PTok.byte b :: rest =>
    match utf8Step b rest with
    | none => none
    | some (v, k) => (utf8DecodeAux fuel (rest.drop k)).map (Char.ofNat v :: ·)

def utf8Decode (ts : List PTok) : Option Str := utf8DecodeAux ts.length ts

/-- Model of the JavaScript built-in `decodeURIComponent`; `none` models a
thrown `URIError`. -/
def decodeURIComponent (s : Str) : Option Str :=
  (pctTokens s).bind utf8Decode

/-- A parsed cookie record (`Record<string, string>`), as a finite map. -/
def CookieMap := Str → Option Str

def emptyCookies : CookieMap := fun _ => none

/-- `result[rawKey] = v`: later assignments shadow earlier ones. -/
def setCookieVal (m : CookieMap) (k v : Str) : CookieMap :=
  fun q => if q = k then some v else m q

/-- `buildCookie` from the source: percent-encode the value and join
`name=value` with the attribute strings using a `"; "` separator. -/
def buildCookie (name : Str) (value : Str) (options : List Str) : Str :=
  joinSep [';', ' '] ((name ++ '=' :: encodeURIComponent value) :: options)

/-- The body of the `for` loop of `parseCookies`: trim the part, split on
`=`, skip an empty name, otherwise decode the rest (re-joined with `=`) and
assign; a `URIError` from `decodeURIComponent` aborts the whole call. -/
def parseCookiesLoop : List Str → CookieMap → Option CookieMap
  | [], acc => some acc
  | part :: parts, acc =>
    if (splitCh '=' (jsTrim part)).headD [] = [] then
      parseCookiesLoop parts acc
    else
      match decodeURIComponent (joinSep ['='] (splitCh '=' (jsTrim part)).tail) with
      | none => none
      | some v =>
        parseCookiesLoop parts
          (setCookieVal acc ((splitCh '=' (jsTrim part)).headD []) v)

/-- `parseCookies` from the source; a `null`/`undefined` or empty (falsy)
header yields the empty record, and `none` models a thrown `URIError`. -/
def parseCookies (cookieHeader : Option Str) : Option CookieMap :=
  match cookieHeader with
  | none => some emptyCookies
  | some s =>
    if s = [] then some emptyCookies
    else parseCookiesLoop (splitCh ';' s) emptyCookies

/-- Observation of `parseCookies`: the value stored under one name. -/
def lookupCookie (cookieHeader : Option Str) (k : Str) : Option (Option Str) :=
  (parseCookies cookieHeader).map fun m => m k

/-- Little-endian base-16 digits of a number (most code uses `hexDigits`). -/
def hexDigitsAux : Nat → Nat → List Nat
  | 0, _ => []
  | fuel + 1, n => if n = 0 then [] else n % 16 :: hexDigitsAux fuel (n / 16)

def hexDigits (n : Nat) : List Nat := hexDigitsAux n n

/-- Serialization of a number: little-endian hex digits, dot-terminated. -/
def encNatS (n : Nat) : Str := (hexDigits n).map hexU ++ ['.']

def decNatS : Str → Option (Nat × Str)
  | [] => none
  | c :: r =>
    if c = '.' then some (0, r)
    else
      match hexVal c with
      | none => none
      | some d =>
        match decNatS r with
        | none => none
        | some (n, r2) => some (d + 16 * n, r2)

/-- Serialization of a string: its length, then each code point. -/
def encStrS (s : Str) : Str :=
  encNatS s.length ++ (s.map fun c => encNatS c.toNat).flatten

def decCharsS : Nat → Str → Option (Str × Str)
  | 0, s => some ([], s)
  | k + 1, s =>
    match decNatS s with
    | none => none
    | some (n, r) =>
      match decCharsS k r with
      | none => none
      | some (cs, r2) => some (Char.ofNat n :: cs, r2)

def decStrS (s : Str) : Option (Str × Str) :=
  match decNatS s with
  | none => none
  | some (k, r) => decCharsS k r

def encOptS : Option Str → Str
  | none => encNatS 0
  | some s => encNatS 1 ++ encStrS s

def decOptS (s : Str) : Option (Option Str × Str) :=
  match decNatS s with
  | none => none
  | some (0, r) => some (none, r)
  | some (1, r) => (decStrS r).map fun p => (some p.1, p.2)
  | some (_, _) => none

/-- The `JwtPayload` type of the source: what the login handler signs. -/
structure JwtPayload where
  sub : Str
  username : Str
  name : Option Str
deriving DecidableEq

/-- The claims bound inside a signed token: the payload plus the `exp`,
`iss` and `aud` claims stamped in by `jwt.sign`. -/
structure Claims where
  sub : Str
  username : Str
  name : Option Str
  exp : Nat
  iss : Str
  aud : Str
deriving DecidableEq

def JWT_ISSUER : Str := "web_test".toList

def JWT_AUDIENCE : Str := "web_test_frontend".toList

def AUTH_COOKIE : Str := "auth_token".toList

/-- `JWT_EXPIRES_IN = "1d"`, in seconds. -/
def JWT_EXPIRES_SECONDS : Nat := 86400

def encodeClaims (c : Claims) : Str :=
  encStrS c.sub ++ encStrS c.username ++ encOptS c.name ++ encNatS c.exp ++
  encStrS c.iss ++ encStrS c.aud

/-- Model of `jwt.sign` applied to full claims: the token is an invertible
serialization of the claims followed by the signing secret; the trailing
secret plays the role of the signature (a verifier recomputes and compares
it), making the token tamper-evident and key-bound. -/
def signClaims (secret : Str) (c : Claims) : Str :=
  encodeClaims c ++ encStrS secret

/-- Recover the claims and the signing key from a token; `none` is a
malformed token. -/
def decodeToken (t : Str) : Option (Claims × Str) :=
  (decStrS t).bind fun p1 =>
  (decStrS p1.2).bind fun p2 =>
  (decOptS p2.2).bind fun p3 =>
  (decNatS p3.2).bind fun p4 =>
  (decStrS p4.2).bind fun p5 =>
  (decStrS p5.2).bind fun p6 =>
  (decStrS p6.2).bind fun p7 =>
  if p7.2 = [] then some (⟨p1.1, p2.1, p3.1, p4.1, p5.1, p6.1⟩, p7.1)
  else none

/-- `signToken` from the source: sign the payload with issuer `web_test`,
audience `web_test_frontend` and a 1-day expiry (`exp = now + 86400`); the
process-wide `JWT_SECRET` and the current time are explicit parameters. -/
def signToken (secret : Str) (now : Nat) (p : JwtPayload) : Str :=
  signClaims secret
    ⟨p.sub, p.username, p.name, now + JWT_EXPIRES_SECONDS, JWT_ISSUER, JWT_AUDIENCE⟩

/-- `verifyToken` from the source (`jwt.verify` with issuer and audience
checks): decode, check the signature against the server secret, the fixed
issuer and audience, and the expiry (`jsonwebtoken` rejects a token once
`now ≥ exp`); `none` models the thrown verification error. -/
def verifyToken (secret : Str) (now : Nat) (t : Str) : Option Claims :=
  match decodeToken t with
  | none => none
  | some (c, sig) =>
    if sig = secret ∧ c.iss = JWT_ISSUER ∧ c.aud = JWT_AUDIENCE ∧ now < c.exp
    then some c else none

/-- Modelled from the spec: the argon2 password hash (the argon2 library is
external to this repository).  Spec §4.2: verification runs the password
through the same memory-hard algorithm that produced the stored hash; the
hash is modelled as an opaque injective function of the password. -/
def argonHash (password : Str) : Str := '$' :: password

/-- Modelled from the spec (§4.2): `argon2.verify(stored_hash, password)`
returns true exactly when the stored hash is the hash of the password, and
false on any mismatch or malformed hash, never throwing for ordinary
invalid input. -/
def argon2Verify (storedHash : Str) (password : Str) : Bool :=
  decide (storedHash = argonHash password)

/-- A row of the external `users` table, as selected by the login query
(`SELECT id, username, password_hash, name`).  The `id` column is the
opaque identifier; it is modelled in its string form (the handler only
ever uses `String(user.id)` and echoes the value back). -/
structure UserRec where
  id : Str
  username : Str
  password_hash : Str
  name : Option Str
deriving DecidableEq

/-- The credential lookup `WHERE username = $1 LIMIT 1`: the first row
whose username matches, if any. -/
def findUser (db : List UserRec) (u : Str) : Option UserRec :=
  db.find? fun r => decide (r.username = u)

def NODE_ENV_PRODUCTION : Str := "production".toList

/-- `cookieOptions` from the source: `Secure` is pushed exactly when
`NODE_ENV === "production"`. -/
def cookieOptions (env : Str) : List Str :=
  let options := ["HttpOnly".toList, "Path=/".toList, "SameSite=Lax".toList,
    "Max-Age=86400".toList]
  if env = NODE_ENV_PRODUCTION then options ++ ["Secure".toList] else options

/-- `clearCookieOptions` from the source: as `cookieOptions` but with
`Max-Age=0`. -/
def clearCookieOptions (env : Str) : List Str :=
  let options := ["HttpOnly".toList, "Path=/".toList, "SameSite=Lax".toList,
    "Max-Age=0".toList]
  if env = NODE_ENV_PRODUCTION then options ++ ["Secure".toList] else options

def requiredMsg : Str := "Username and password are required".toList

def invalidCredMsg : Str := "Invalid username or password".toList

def missingCookieMsg : Str := "Missing session cookie".toList

def invalidSessionMsg : Str := "Invalid or expired session".toList

/-- A JSON response body: an error object, a user projection, or the
logout success object. -/
inductive RespBody where
  | err (msg : Str)
  | userBody (id : Str) (username : Str) (name : Option Str)
  | successBody
deriving DecidableEq

/-- An HTTP-level response: status, JSON body, optional Set-Cookie. -/
structure Resp where
  status : Nat
  body : RespBody
  setCookie : Option Str
deriving DecidableEq

/-- The `LoginBody` type of the source: both fields optional. -/
structure LoginBody where
  username : Option Str
  password : Option Str
deriving DecidableEq

/-- The `POST /api/login` handler.  `body ?? {}` defaults a missing body;
`!username || !password` (absent or empty string) is a 400; an unknown
username or a failing password check is the generic 401; success signs the
token, sets the cookie and returns the public user projection. -/
def loginHandler (env secret : Str) (now : Nat) (db : List UserRec)
    (body : Option LoginBody) : Resp :=
  let b := body.getD ⟨none, none⟩
  match b.username, b.password with
  | some u, some p =>
    if u = [] ∨ p = [] then ⟨400, .err requiredMsg, none⟩
    else
      match findUser db u with
      | none => ⟨401, .err invalidCredMsg, none⟩
      | some user =>
        if argon2Verify user.password_hash p then
          ⟨200, .userBody user.id user.username user.name,
            some (buildCookie AUTH_COOKIE
              (signToken secret now ⟨user.id, user.username, user.name⟩)
              (cookieOptions env))⟩
        else ⟨401, .err invalidCredMsg, none⟩
  | _, _ => ⟨400, .err requiredMsg, none⟩

/-- The `GET /api/me` handler: parse the cookie header, reject a missing or
empty (falsy) token value, verify the token inside `try`, and project the
identity from the claims; the outer `none` models an uncaught `URIError`
escaping from `parseCookies`, which happens outside the `try`. -/
def meHandler (secret : Str) (now : Nat) (cookieHeader : Option Str) :
    Option Resp :=
  match parseCookies cookieHeader with
  | none => none
  | some cookies =>
    match cookies AUTH_COOKIE with
    | none => some ⟨401, .err missingCookieMsg, none⟩
    | some t =>
      if t = [] then some ⟨401, .err missingCookieMsg, none⟩
      else
        match verifyToken secret now t with
        | some payload =>
          some ⟨200, .userBody payload.sub payload.username payload.name, none⟩
        | none => some ⟨401, .err invalidSessionMsg, none⟩

/-- The `POST /api/logout` handler: unconditionally clear the cookie and
return the success object. -/
def logoutHandler (env : Str) : Resp :=
  ⟨200, .successBody, some (buildCookie AUTH_COOKIE [] (clearCookieOptions env))⟩

/-- The Cookie header a client sends when it presents token `t` as the
session cookie (the percent-encoded value it received via Set-Cookie). -/
def tokenHeader (t : Str) : Str := AUTH_COOKIE ++ '=' :: encodeURIComponent t

/-! ## Character-class and list lemmas -/

theorem hexU_unreserved : ∀ d, d < 16 → uriUnreserved (hexU d) = true := by decide

theorem hexU_ne_dot : ∀ d, d < 16 → hexU d ≠ '.' := by decide

theorem hexVal_hexU : ∀ d, d < 16 → hexVal (hexU d) = some d := by decide

theorem char_toNat_valid (c : Char) :
    c.toNat < 0xD800 ∨ (0xDFFF < c.toNat ∧ c.toNat < 0x110000) := c.valid

theorem char_toNat_lt (c : Char) : c.toNat < 0x110000 := by
  rcases char_toNat_valid c with h | ⟨_, h⟩ <;> omega

theorem uriUnreserved_not_space {c : Char} (h : uriUnreserved c = true) :
    jsSpace c = false := by
  simp [uriUnreserved] at h
  simp [jsSpace]
  omega

theorem splitCh_ne_nil (sep : Char) (s : Str) : splitCh sep s ≠ [] := by
  cases s with
  | nil => simp [splitCh]
  | cons c rest =>
    unfold splitCh
    by_cases h : c = sep
    · simp [h]
    · simp only [h, if_false]
      cases splitCh sep rest <;> simp

theorem splitCh_nosep {sep : Char} {s : Str} (h : ∀ c ∈ s, c ≠ sep) :
    splitCh sep s = [s] := by
  induction s with
  | nil => rfl
  | cons c rest ih =>
    have hc : c ≠ sep := h c (by simp)
    have ih2 : splitCh sep rest = [rest] := ih fun x hx => h x (by simp [hx])
    unfold splitCh
    simp [hc, ih2]

theorem splitCh_append {sep : Char} {x y : Str} (h : ∀ c ∈ x, c ≠ sep) :
    splitCh sep (x ++ sep :: y) = x :: splitCh sep y := by
  induction x with
  | nil => simp [splitCh]
  | cons c rest ih =>
    have hc : c ≠ sep := h c (by simp)
    have ih2 := ih fun a ha => h a (by simp [ha])
    simp only [List.cons_append]
    unfold splitCh
    simp [hc, ih2]
    cases y <;> rfl

theorem mem_of_mem_splitCh {sep : Char} {s p : Str} (hp : p ∈ splitCh sep s)
    {c : Char} (hc : c ∈ p) : c ∈ s := by
  induction s generalizing p with
  | nil =>
    simp [splitCh] at hp
    subst hp
    simp at hc
  | cons d rest ih =>
    unfold splitCh at hp
    by_cases hd : d = sep
    · simp [hd] at hp
      rcases hp with rfl | hp
      · simp at hc
      · exact List.mem_cons_of_mem _ (ih hp hc)
    · simp only [hd, if_false] at hp
      cases hsp : splitCh sep rest with
      | nil => exact absurd hsp (splitCh_ne_nil sep rest)
      | cons r rs =>
        rw [hsp] at hp
        rcases List.mem_cons.1 hp with rfl | hp2
        · rcases List.mem_cons.1 hc with rfl | hc2
          · exact List.mem_cons_self _ _
          · exact List.mem_cons_of_mem _ (ih (hsp ▸ List.mem_cons_self r rs) hc2)
        · exact List.mem_cons_of_mem _ (ih (hsp ▸ List.mem_cons_of_mem r hp2) hc)

theorem trimLeft_nospace {s : Str} (h : ∀ c ∈ s, jsSpace c = false) :
    trimLeft s = s := by
  cases s with
  | nil => rfl
  | cons c rest =>
    have hc := h c (by simp)
    simp [trimLeft, List.dropWhile, hc]

theorem jsTrim_nospace {s : Str} (h : ∀ c ∈ s, jsSpace c = false) : jsTrim s = s := by
  unfold jsTrim
  rw [trimLeft_nospace h,
    trimLeft_nospace fun c hc => h c (List.mem_reverse.1 hc),
    List.reverse_reverse]

theorem jsTrim_cons_space (s : Str) : jsTrim (' ' :: s) = jsTrim s := by
  have hsp : jsSpace ' ' = true := by decide
  unfold jsTrim trimLeft
  simp [List.dropWhile, hsp]

theorem mem_of_mem_trimLeft {s : Str} {c : Char} (h : c ∈ trimLeft s) : c ∈ s :=
  (List.dropWhile_sublist _).subset h

theorem mem_of_mem_jsTrim {s : Str} {c : Char} (h : c ∈ jsTrim s) : c ∈ s := by
  unfold jsTrim at h
  rw [List.mem_reverse] at h
  have h2 := mem_of_mem_trimLeft h
  rw [List.mem_reverse] at h2
  exact mem_of_mem_trimLeft h2

theorem mem_joinSep {sep : Str} {parts : List Str} {c : Char}
    (h : c ∈ joinSep sep parts) : c ∈ sep ∨ ∃ p ∈ parts, c ∈ p := by
  induction parts with
  | nil => simp [joinSep] at h
  | cons x xs ih =>
    cases xs with
    | nil =>
      exact Or.inr ⟨x, by simp, h⟩
    | cons y ys =>
      have h2 : c ∈ x ++ sep ++ joinSep sep (y :: ys) := h
      rw [List.append_assoc, List.mem_append, List.mem_append] at h2
      rcases h2 with hx | hsep | hj
      · exact Or.inr ⟨x, by simp, hx⟩
      · exact Or.inl hsep
      · rcases ih hj with hs | ⟨p, hp, hcp⟩
        · exact Or.inl hs
        · exact Or.inr ⟨p, List.mem_cons_of_mem _ hp, hcp⟩

/-! ## Percent-codec lemmas -/

theorem utf8Bytes_lt {n : Nat} (hn : n < 0x110000) : ∀ b ∈ utf8Bytes n, b < 256 := by
  intro b hb
  unfold utf8Bytes at hb
  split_ifs at hb with h1 h2 h3
  · simp at hb; omega
  · simp at hb; rcases hb with rfl | rfl <;> omega
  · simp at hb; rcases hb with rfl | rfl | rfl <;> omega
  · simp at hb; rcases hb with rfl | rfl | rfl | rfl <;> omega

theorem encodeURIChar_chars {c x : Char} (hx : x ∈ encodeURIChar c) :
    uriUnreserved x = true ∨ x = '%' := by
  unfold encodeURIChar at hx
  cases hcr : uriUnreserved c with
  | true =>
    simp [hcr] at hx
    subst hx
    exact Or.inl hcr
  | false =>
    simp only [hcr, Bool.false_eq_true, if_false] at hx
    rw [List.mem_flatten] at hx
    rcases hx with ⟨l, hl, hxl⟩
    rcases List.mem_map.1 hl with ⟨b, hb, rfl⟩
    have hb256 : b < 256 := utf8Bytes_lt (char_toNat_lt c) b hb
    rcases List.mem_cons.1 hxl with rfl | hxl2
    · exact Or.inr rfl
    · rcases List.mem_cons.1 hxl2 with rfl | hxl3
      · exact Or.inl (hexU_unreserved _ (by omega))
      · rcases List.mem_cons.1 hxl3 with rfl | hxl4
        · exact Or.inl (hexU_unreserved _ (by omega))
        · simp at hxl4

theorem encodeURIComponent_chars {s : Str} {x : Char}
    (hx : x ∈ encodeURIComponent s) : uriUnreserved x = true ∨ x = '%' := by
  unfold encodeURIComponent at hx
  rw [List.mem_flatten] at hx
  rcases hx with ⟨l, hl, hxl⟩
  rcases List.mem_map.1 hl with ⟨c, _, rfl⟩
  exact encodeURIChar_chars hxl

theorem encodeURIComponent_no_semi {s : Str} : ∀ c ∈ encodeURIComponent s, c ≠ ';' := by
  intro c hc he
  subst he
  rcases encodeURIComponent_chars hc with h | h
  · exact absurd h (by decide)
  · exact absurd h (by decide)

theorem encodeURIComponent_no_equal {s : Str} : ∀ c ∈ encodeURIComponent s, c ≠ '=' := by
  intro c hc he
  subst he
  rcases encodeURIComponent_chars hc with h | h
  · exact absurd h (by decide)
  · exact absurd h (by decide)

theorem encodeURIComponent_no_space {s : Str} :
    ∀ c ∈ encodeURIComponent s, jsSpace c = false := by
  intro c hc
  rcases encodeURIComponent_chars hc with h | h
  · exact uriUnreserved_not_space h
  · subst h; decide

theorem pctTokens_cons {c : Char} (hc : c ≠ '%') (rest : Str) :
    pctTokens (c :: rest) = (pctTokens rest).map (PTok.chr c :: ·) := by
  rw [pctTokens.eq_def]
  simp [hc]

theorem pctTokens_nopct {s : Str} (h : ∀ c ∈ s, c ≠ '%') :
    pctTokens s = some (s.map PTok.chr) := by
  induction s with
  | nil => rfl
  | cons c rest ih =>
    rw [pctTokens_cons (h c (by simp)) rest, ih fun a ha => h a (by simp [ha])]
    rfl

theorem utf8DecodeAux_fuel : ∀ (f1 f2 : Nat) (ts : List PTok),
    ts.length ≤ f1 → ts.length ≤ f2 → utf8DecodeAux f1 ts = utf8DecodeAux f2 ts := by
  intro f1
  induction f1 with
  | zero =>
    intro f2 ts h1 _
    have hts : ts = [] := by
      cases ts with
      | nil => rfl
      | cons t r => simp at h1
    subst hts
    cases f2 <;> rfl
  | succ f ih =>
    intro f2 ts h1 h2
    cases ts with
    | nil => cases f2 <;> rfl
    | cons t rest =>
      cases f2 with
      | zero => simp at h2
      | succ f2p =>
        cases t with
        | chr c =>
          simp only [utf8DecodeAux]
          rw [ih f2p rest (by simp at h1; omega) (by simp at h2; omega)]
        | byte b =>
          simp only [utf8DecodeAux]
          cases hs : utf8Step b rest with
          | none => rfl
          | some p =>
            obtain ⟨v, k⟩ := p
            show (utf8DecodeAux f (rest.drop k)).map (Char.ofNat v :: ·) =
              (utf8DecodeAux f2p (rest.drop k)).map (Char.ofNat v :: ·)
            have hl : (rest.drop k).length ≤ rest.length := by simp
            rw [ih f2p (rest.drop k) (by simp at h1 ⊢; omega)
              (by simp at h2 ⊢; omega)]

theorem utf8Decode_nil : utf8Decode [] = some [] := rfl

theorem utf8Decode_chr (c : Char) (ts : List PTok) :
    utf8Decode (PTok.chr c :: ts) = (utf8Decode ts).map (c :: ·) := by
  show utf8DecodeAux (PTok.chr c :: ts).length _ = _
  rw [List.length_cons]
  simp only [utf8DecodeAux]
  rfl

theorem utf8Decode_byte_some {b : Nat} {ts : List PTok} {v k : Nat}
    (hs : utf8Step b ts = some (v, k)) :
    utf8Decode (PTok.byte b :: ts) =
      (utf8Decode (ts.drop k)).map (Char.ofNat v :: ·) := by
  show utf8DecodeAux (PTok.byte b :: ts).length _ = _
  rw [List.length_cons]
  simp only [utf8DecodeAux, hs]
  exact congrArg _ (utf8DecodeAux_fuel _ _ _ (by simp) le_rfl)

theorem utf8Decode_chrs (s : Str) : utf8Decode (s.map PTok.chr) = some s := by
  induction s with
  | nil => rfl
  | cons c rest ih => rw [List.map_cons, utf8Decode_chr, ih]; rfl

theorem decode_nopct {s : Str} (h : ∀ c ∈ s, c ≠ '%') :
    decodeURIComponent s = some s := by
  unfold decodeURIComponent
  rw [pctTokens_nopct h]
  simp [utf8Decode_chrs]

theorem pctTokens_pctByte {b : Nat} (hb : b < 256) (r : Str) :
    pctTokens (pctByte b ++ r) = (pctTokens r).map (PTok.byte b :: ·) := by
  have h1 : b / 16 < 16 := by omega
  have h2 : b % 16 < 16 := by omega
  show pctTokens ('%' :: hexU (b / 16) :: hexU (b % 16) :: r) = _
  rw [pctTokens.eq_def]
  simp [hexVal_hexU _ h1, hexVal_hexU _ h2]
  have hb2 : 16 * (b / 16) + b % 16 = b := by omega
  rw [hb2]

theorem pctTokens_bytes {bs : List Nat} (hb : ∀ b ∈ bs, b < 256) (r : Str) :
    pctTokens ((bs.map pctByte).flatten ++ r) =
      (pctTokens r).map (bs.map PTok.byte ++ ·) := by
  induction bs with
  | nil => simp
  | cons b rest ih =>
    simp only [List.map_cons, List.flatten_cons, List.append_assoc]
    rw [pctTokens_pctByte (hb b (by simp)), ih fun x hx => hb x (by simp [hx])]
    cases pctTokens r <;> simp

theorem utf8Decode_bytes (c : Char) (ts : List PTok) :
    utf8Decode ((utf8Bytes c.toNat).map PTok.byte ++ ts) =
      (utf8Decode ts).map (c :: ·) := by
  have hv := char_toNat_valid c
  have hofn : Char.ofNat c.toNat = c := Char.ofNat_toNat c
  unfold utf8Bytes
  split_ifs with h1 h2 h3
  · have hs : utf8Step c.toNat ts = some (c.toNat, 0) := by
      unfold utf8Step
      simp [h1]
    simp only [List.map_cons, List.map_nil, List.cons_append, List.nil_append]
    rw [utf8Decode_byte_some hs]
    simp only [List.drop_zero]
    rw [hofn]
  · have hb1a : ¬(0xC0 + c.toNat / 0x40 < 0x80) := by omega
    have hb1b : ¬(0xC0 + c.toNat / 0x40 < 0xC2) := by omega
    have hb1c : 0xC0 + c.toNat / 0x40 < 0xE0 := by omega
    have hcont : utf8Cont (0x80 + c.toNat % 0x40) = true := by
      simp [utf8Cont]; omega
    have hval : (0xC0 + c.toNat / 0x40 - 0xC0) * 0x40 +
        (0x80 + c.toNat % 0x40 - 0x80) = c.toNat := by omega
    have hs : utf8Step (0xC0 + c.toNat / 0x40)
        (PTok.byte (0x80 + c.toNat % 0x40) :: ts) = some (c.toNat, 1) := by
      unfold utf8Step
      rw [if_neg hb1a, if_neg hb1b, if_pos hb1c]
      simp [hcont]
      omega
    simp only [List.map_cons, List.map_nil, List.cons_append, List.nil_append]
    rw [utf8Decode_byte_some hs]
    simp only [List.drop_succ_cons, List.drop_zero]
    rw [hofn]
  · have hb1a : ¬(0xE0 + c.toNat / 0x1000 < 0x80) := by omega
    have hb1b : ¬(0xE0 + c.toNat / 0x1000 < 0xC2) := by omega
    have hb1c : ¬(0xE0 + c.toNat / 0x1000 < 0xE0) := by omega
    have hb1d : 0xE0 + c.toNat / 0x1000 < 0xF0 := by omega
    have hcont2 : utf8Cont (0x80 + c.toNat / 0x40 % 0x40) = true := by
      simp [utf8Cont]; omega
    have hcont3 : utf8Cont (0x80 + c.toNat % 0x40) = true := by
      simp [utf8Cont]; omega
    have hval : (0xE0 + c.toNat / 0x1000 - 0xE0) * 0x1000 +
        (0x80 + c.toNat / 0x40 % 0x40 - 0x80) * 0x40 +
        (0x80 + c.toNat % 0x40 - 0x80) = c.toNat := by omega
    have hcond : 0x800 ≤ c.toNat ∧ ¬(0xD800 ≤ c.toNat ∧ c.toNat < 0xE000) := by
      omega
    have hs : utf8Step (0xE0 + c.toNat / 0x1000)
        (PTok.byte (0x80 + c.toNat / 0x40 % 0x40) ::
          PTok.byte (0x80 + c.toNat % 0x40) :: ts) = some (c.toNat, 2) := by
      unfold utf8Step
      rw [if_neg hb1a, if_neg hb1b, if_neg hb1c, if_pos hb1d]
      simp [hcont2, hcont3]
      omega
    simp only [List.map_cons, List.map_nil, List.cons_append, List.nil_append]
    rw [utf8Decode_byte_some hs]
    simp only [List.drop_succ_cons, List.drop_zero]
    rw [hofn]
  · have hlt := char_toNat_lt c
    have hb1a : ¬(0xF0 + c.toNat / 0x40000 < 0x80) := by omega
    have hb1b : ¬(0xF0 + c.toNat / 0x40000 < 0xC2) := by omega
    have hb1c : ¬(0xF0 + c.toNat / 0x40000 < 0xE0) := by omega
    have hb1d : ¬(0xF0 + c.toNat / 0x40000 < 0xF0) := by omega
    have hb1e : 0xF0 + c.toNat / 0x40000 < 0xF5 := by omega
    have hcont2 : utf8Cont (0x80 + c.toNat / 0x1000 % 0x40) = true := by
      simp [utf8Cont]; omega
    have hcont3 : utf8Cont (0x80 + c.toNat / 0x40 % 0x40) = true := by
      simp [utf8Cont]; omega
    have hcont4 : utf8Cont (0x80 + c.toNat % 0x40) = true := by
      simp [utf8Cont]; omega
    have hval : (0xF0 + c.toNat / 0x40000 - 0xF0) * 0x40000 +
        (0x80 + c.toNat / 0x1000 % 0x40 - 0x80) * 0x1000 +
        (0x80 + c.toNat / 0x40 % 0x40 - 0x80) * 0x40 +
        (0x80 + c.toNat % 0x40 - 0x80) = c.toNat := by omega
    have hcond : 0x10000 ≤ c.toNat ∧ c.toNat < 0x110000 := by omega
    have hs : utf8Step (0xF0 + c.toNat / 0x40000)
        (PTok.byte (0x80 + c.toNat / 0x1000 % 0x40) ::
          PTok.byte (0x80 + c.toNat / 0x40 % 0x40) ::
          PTok.byte (0x80 + c.toNat % 0x40) :: ts) = some (c.toNat, 3) := by
      unfold utf8Step
      rw [if_neg hb1a, if_neg hb1b, if_neg hb1c, if_neg hb1d, if_pos hb1e]
      simp [hcont2, hcont3, hcont4]
      omega
    simp only [List.map_cons, List.map_nil, List.cons_append, List.nil_append]
    rw [utf8Decode_byte_some hs]
    simp only [List.drop_succ_cons, List.drop_zero]
    rw [hofn]

theorem pctTokens_enc (s : Str) (r : Str) :
    pctTokens (encodeURIComponent s ++ r) = (pctTokens r).map (encPT s ++ ·) := by
  induction s with
  | nil =>
    simp [encodeURIComponent, encPT]
  | cons c rest ih =>
    have hshape : encodeURIComponent (c :: rest) =
        encodeURIChar c ++ encodeURIComponent rest := by
      simp [encodeURIComponent]
    rw [hshape, List.append_assoc]
    cases hcr : uriUnreserved c with
    | true =>
      have hcp : c ≠ '%' := by
        intro he
        subst he
        exact absurd hcr (by decide)
      rw [show encodeURIChar c = [c] from by simp [encodeURIChar, hcr]]
      simp only [List.cons_append, List.nil_append]
      rw [pctTokens_cons hcp, ih]
      have he : encPT (c :: rest) = PTok.chr c :: encPT rest := by
        simp [encPT, hcr]
      rw [he]
      cases pctTokens r <;> simp
    | false =>
      rw [show encodeURIChar c = ((utf8Bytes c.toNat).map pctByte).flatten from by
        simp [encodeURIChar, hcr]]
      rw [pctTokens_bytes (utf8Bytes_lt (char_toNat_lt c)), ih]
      have he : encPT (c :: rest) =
          (utf8Bytes c.toNat).map PTok.byte ++ encPT rest := by
        simp [encPT, hcr]
      rw [he]
      cases pctTokens r <;> simp

theorem utf8Decode_encPT (s : Str) (ts : List PTok) :
    utf8Decode (encPT s ++ ts) = (utf8Decode ts).map (s ++ ·) := by
  induction s with
  | nil =>
    simp [encPT]
  | cons c rest ih =>
    have hsh : encPT (c :: rest) =
        (if uriUnreserved c then [PTok.chr c]
         else (utf8Bytes c.toNat).map PTok.byte) ++ encPT rest := by
      simp [encPT]
    rw [hsh, List.append_assoc]
    cases hcr : uriUnreserved c with
    | true =>
      simp only [hcr, if_true]
      simp only [List.cons_append, List.nil_append]
      rw [utf8Decode_chr, ih]
      cases utf8Decode ts <;> simp
    | false =>
      simp only [hcr, Bool.false_eq_true, if_false]
      rw [utf8Decode_bytes, ih]
      cases utf8Decode ts <;> simp

theorem decodeURIComponent_encode (s : Str) :
    decodeURIComponent (encodeURIComponent s) = some s := by
  unfold decodeURIComponent
  have h1 : pctTokens (encodeURIComponent s) = some (encPT s) := by
    have h := pctTokens_enc s []
    simp only [List.append_nil] at h
    rw [h]
    simp [pctTokens]
  rw [h1]
  have h2 : utf8Decode (encPT s) = some s := by
    have h := utf8Decode_encPT s []
    simp only [List.append_nil] at h
    rw [h, utf8Decode_nil]
    simp
  simp [h2]

/-! ## Token serialization roundtrip -/

theorem hexDigitsAux_lt : ∀ fuel n, ∀ d ∈ hexDigitsAux fuel n, d < 16 := by
  intro fuel
  induction fuel with
  | zero => intro n d hd; simp [hexDigitsAux] at hd
  | succ f ih =>
    intro n d hd
    unfold hexDigitsAux at hd
    split_ifs at hd with h
    · simp at hd
    · rcases List.mem_cons.1 hd with rfl | hd2
      · omega
      · exact ih _ _ hd2

theorem decNatS_digits : ∀ (ds : List Nat) (r : Str), (∀ d ∈ ds, d < 16) →
    decNatS (ds.map hexU ++ '.' :: r) =
      some (ds.foldr (fun d acc => d + 16 * acc) 0, r) := by
  intro ds
  induction ds with
  | nil =>
    intro r _
    simp [decNatS]
  | cons d ds ih =>
    intro r hlt
    have hd : d < 16 := hlt d (by simp)
    simp only [List.map_cons, List.cons_append, List.foldr_cons]
    rw [decNatS.eq_def]
    simp only []
    rw [if_neg (hexU_ne_dot d hd), hexVal_hexU d hd,
      ih r fun x hx => hlt x (by simp [hx])]

theorem hexDigitsAux_foldr : ∀ fuel n, n ≤ fuel →
    (hexDigitsAux fuel n).foldr (fun d acc => d + 16 * acc) 0 = n := by
  intro fuel
  induction fuel with
  | zero =>
    intro n h
    have h0 : n = 0 := by omega
    subst h0
    rfl
  | succ f ih =>
    intro n h
    unfold hexDigitsAux
    split_ifs with h0
    · simp [h0]
    · simp only [List.foldr_cons]
      rw [ih (n / 16) (by omega)]
      omega

theorem decNatS_enc (n : Nat) (r : Str) : decNatS (encNatS n ++ r) = some (n, r) := by
  unfold encNatS hexDigits
  rw [List.append_assoc]
  simp only [List.singleton_append]
  rw [decNatS_digits _ r (hexDigitsAux_lt n n), hexDigitsAux_foldr n n le_rfl]

theorem decCharsS_enc (cs : Str) (r : Str) :
    decCharsS cs.length ((cs.map fun c => encNatS c.toNat).flatten ++ r) =
      some (cs, r) := by
  induction cs generalizing r with
  | nil => simp [decCharsS]
  | cons c rest ih =>
    simp only [List.map_cons, List.flatten_cons, List.length_cons, List.append_assoc]
    rw [decCharsS.eq_def]
    simp only []
    rw [decNatS_enc]
    simp only []
    rw [ih r]
    simp [Char.ofNat_toNat]

theorem decStrS_enc (s : Str) (r : Str) : decStrS (encStrS s ++ r) = some (s, r) := by
  unfold decStrS encStrS
  rw [List.append_assoc, decNatS_enc]
  simp only []
  exact decCharsS_enc s r

theorem decOptS_enc (o : Option Str) (r : Str) :
    decOptS (encOptS o ++ r) = some (o, r) := by
  cases o with
  | none =>
    unfold encOptS decOptS
    rw [decNatS_enc]
  | some s =>
    unfold encOptS decOptS
    rw [List.append_assoc, decNatS_enc]
    simp only []
    rw [decStrS_enc]
    rfl

theorem decodeToken_signClaims (secret : Str) (c : Claims) :
    decodeToken (signClaims secret c) = some (c, secret) := by
  have h7 : decStrS (encStrS secret) = some (secret, []) := by
    have h := decStrS_enc secret []
    rwa [List.append_nil] at h
  unfold signClaims encodeClaims decodeToken
  simp only [List.append_assoc]
  rw [decStrS_enc]
  simp only [Option.some_bind]
  rw [decStrS_enc]
  simp only [Option.some_bind]
  rw [decOptS_enc]
  simp only [Option.some_bind]
  rw [decNatS_enc]
  simp only [Option.some_bind]
  rw [decStrS_enc]
  simp only [Option.some_bind]
  rw [decStrS_enc]
  simp only [Option.some_bind]
  rw [h7]
  simp

theorem signToken_eq (secret : Str) (now : Nat) (p : JwtPayload) :
    signToken secret now p = signClaims secret
      ⟨p.sub, p.username, p.name, now + JWT_EXPIRES_SECONDS, JWT_ISSUER,
        JWT_AUDIENCE⟩ := rfl

theorem verifyToken_signClaims_ok {secret : Str} {now : Nat} {c : Claims}
    (hiss : c.iss = JWT_ISSUER) (haud : c.aud = JWT_AUDIENCE)
    (hexp : now < c.exp) :
    verifyToken secret now (signClaims secret c) = some c := by
  unfold verifyToken
  rw [decodeToken_signClaims]
  simp [hiss, haud, hexp]

theorem verifyToken_signClaims_expired {secret : Str} {now : Nat} {c : Claims}
    (hexp : c.exp ≤ now) : verifyToken secret now (signClaims secret c) = none := by
  unfold verifyToken
  rw [decodeToken_signClaims]
  show (if secret = secret ∧ c.iss = JWT_ISSUER ∧ c.aud = JWT_AUDIENCE ∧
      now < c.exp then some c else none) = none
  rw [if_neg]
  rintro ⟨-, -, -, h⟩
  omega

theorem verifyToken_wrong_secret {secret s2 : Str} {now : Nat} {c : Claims}
    (hs : s2 ≠ secret) : verifyToken secret now (signClaims s2 c) = none := by
  unfold verifyToken
  rw [decodeToken_signClaims]
  show (if s2 = secret ∧ c.iss = JWT_ISSUER ∧ c.aud = JWT_AUDIENCE ∧
      now < c.exp then some c else none) = none
  rw [if_neg]
  rintro ⟨h, -⟩
  exact hs h

theorem verifyToken_malformed {secret : Str} {now : Nat} {t : Str}
    (h : decodeToken t = none) : verifyToken secret now t = none := by
  unfold verifyToken
  rw [h]

theorem verifyToken_exp {secret : Str} {now : Nat} {t : Str} {c : Claims}
    (h : verifyToken secret now t = some c) : now < c.exp := by
  unfold verifyToken at h
  cases hd : decodeToken t with
  | none => rw [hd] at h; simp at h
  | some p =>
    obtain ⟨cl, sig⟩ := p
    rw [hd] at h
    simp at h
    obtain ⟨⟨-, -, -, h4⟩, rfl⟩ := h
    exact h4

theorem signClaims_ne_nil (secret : Str) (c : Claims) : signClaims secret c ≠ [] := by
  unfold signClaims encodeClaims encStrS encNatS
  simp

/-! ## Cookie parsing lemmas -/

theorem partValue_nopct {part : Str} (h : ∀ c ∈ part, c ≠ '%') :
    ∀ c ∈ joinSep ['='] (splitCh '=' (jsTrim part)).tail, c ≠ '%' := by
  intro c hc
  rcases mem_joinSep hc with hs | ⟨p, hp, hcp⟩
  · simp at hs
    subst hs
    decide
  · exact h c (mem_of_mem_jsTrim
      (mem_of_mem_splitCh (List.mem_of_mem_tail hp) hcp))

theorem parseCookiesLoop_isSome {parts : List Str}
    (h : ∀ p ∈ parts, ∀ c ∈ p, c ≠ '%') :
    ∀ acc, (parseCookiesLoop parts acc).isSome = true := by
  induction parts with
  | nil => intro acc; rfl
  | cons part parts ih =>
    intro acc
    have ih2 := ih fun p hp => h p (by simp [hp])
    unfold parseCookiesLoop
    split_ifs with hk
    · exact ih2 acc
    · rw [decode_nopct (partValue_nopct (h part (by simp)))]
      exact ih2 _

theorem parseCookiesLoop_lookup {parts : List Str} {k : Str} :
    ∀ {acc m : CookieMap}, parseCookiesLoop parts acc = some m →
    (∀ p ∈ parts, (splitCh '=' (jsTrim p)).headD [] ≠ k) → m k = acc k := by
  induction parts with
  | nil =>
    intro acc m hm _
    obtain rfl : acc = m := Option.some.inj hm
    rfl
  | cons part parts ih =>
    intro acc m hm hk
    unfold parseCookiesLoop at hm
    split_ifs at hm with hke
    · exact ih hm fun p hp => hk p (by simp [hp])
    · cases hd : decodeURIComponent (joinSep ['='] (splitCh '=' (jsTrim part)).tail) with
      | none => rw [hd] at hm; exact absurd hm (by simp)
      | some v =>
        rw [hd] at hm
        have hres := ih hm fun p hp => hk p (by simp [hp])
        rw [hres]
        have hne : (splitCh '=' (jsTrim part)).headD [] ≠ k :=
          hk part (by simp)
        unfold setCookieVal
        rw [if_neg fun he => hne he.symm]

theorem parseCookiesLoop_empty_absent {parts : List Str} :
    ∀ {acc m : CookieMap}, parseCookiesLoop parts acc = some m →
    acc [] = none → m [] = none := by
  induction parts with
  | nil =>
    intro acc m hm hacc
    obtain rfl : acc = m := Option.some.inj hm
    exact hacc
  | cons part parts ih =>
    intro acc m hm hacc
    unfold parseCookiesLoop at hm
    split_ifs at hm with hke
    · exact ih hm hacc
    · cases hd : decodeURIComponent (joinSep ['='] (splitCh '=' (jsTrim part)).tail) with
      | none => rw [hd] at hm; exact absurd hm (by simp)
      | some v =>
        rw [hd] at hm
        refine ih hm ?_
        unfold setCookieVal
        rw [if_neg fun he => hke he.symm]
        exact hacc

theorem parseCookiesLoop_cons (part : Str) (parts : List Str) (acc : CookieMap) :
    parseCookiesLoop (part :: parts) acc =
      if (splitCh '=' (jsTrim part)).headD [] = [] then
        parseCookiesLoop parts acc
      else
        match decodeURIComponent (joinSep ['='] (splitCh '=' (jsTrim part)).tail) with
        | none => none
        | some v =>
          parseCookiesLoop parts
            (setCookieVal acc ((splitCh '=' (jsTrim part)).headD []) v) := rfl

theorem parseCookiesLoop_pair {k v : Str} (parts : List Str) (acc : CookieMap)
    (hk : k ≠ []) (hkchars : ∀ c ∈ k, c ≠ '=' ∧ jsSpace c = false) :
    parseCookiesLoop ((k ++ '=' :: encodeURIComponent v) :: parts) acc =
      parseCookiesLoop parts (setCookieVal acc k v) := by
  have htrim : jsTrim (k ++ '=' :: encodeURIComponent v) =
      k ++ '=' :: encodeURIComponent v := by
    apply jsTrim_nospace
    intro c hc
    rcases List.mem_append.1 hc with hc1 | hc2
    · exact (hkchars c hc1).2
    · rcases List.mem_cons.1 hc2 with rfl | hc3
      · decide
      · exact encodeURIComponent_no_space c hc3
  have hsplit : splitCh '=' (k ++ '=' :: encodeURIComponent v) =
      [k, encodeURIComponent v] := by
    rw [splitCh_append fun c hc => (hkchars c hc).1,
      splitCh_nosep encodeURIComponent_no_equal]
  rw [parseCookiesLoop_cons, htrim, hsplit]
  simp only [List.headD_cons, List.tail_cons]
  rw [if_neg hk]
  have hjoin : joinSep ['='] [encodeURIComponent v] = encodeURIComponent v := rfl
  rw [hjoin, decodeURIComponent_encode]

theorem joinSep_splitCh_semi : ∀ (x : Str) (xs : List Str),
    (∀ c ∈ x, c ≠ ';') → (∀ a ∈ xs, ∀ c ∈ a, c ≠ ';') →
    splitCh ';' (joinSep [';', ' '] (x :: xs)) = x :: xs.map (' ' :: ·) := by
  intro x xs
  induction xs generalizing x with
  | nil =>
    intro hx _
    exact splitCh_nosep hx
  | cons y ys ih =>
    intro hx hxs
    have hshape : joinSep [';', ' '] (x :: y :: ys) =
        x ++ ';' :: ' ' :: joinSep [';', ' '] (y :: ys) := by
      show (x ++ [';', ' ']) ++ joinSep [';', ' '] (y :: ys) = _
      rw [List.append_assoc]
      rfl
    rw [hshape, splitCh_append hx]
    have ihy := ih y (hxs y (by simp)) fun a ha => hxs a (by simp [ha])
    rw [splitCh.eq_def]
    simp only []
    rw [if_neg (by decide : ¬(' ' = ';'))]
    rw [ihy]
    simp

/-! ## Handler-level lemmas -/

theorem authCookie_chars :
    ∀ c ∈ AUTH_COOKIE, c ≠ ';' ∧ c ≠ '=' ∧ jsSpace c = false ∧ c ≠ '%' := by
  decide

theorem parseCookies_tokenHeader (t : Str) :
    parseCookies (some (tokenHeader t)) =
      some (setCookieVal emptyCookies AUTH_COOKIE t) := by
  unfold parseCookies tokenHeader
  show (if AUTH_COOKIE ++ '=' :: encodeURIComponent t = [] then some emptyCookies
    else parseCookiesLoop
      (splitCh ';' (AUTH_COOKIE ++ '=' :: encodeURIComponent t)) emptyCookies) =
    some (setCookieVal emptyCookies AUTH_COOKIE t)
  rw [if_neg (by simp : ¬(AUTH_COOKIE ++ '=' :: encodeURIComponent t = []))]
  have hsplit : splitCh ';' (AUTH_COOKIE ++ '=' :: encodeURIComponent t) =
      [AUTH_COOKIE ++ '=' :: encodeURIComponent t] := by
    apply splitCh_nosep
    intro c hc
    rcases List.mem_append.1 hc with h1 | h2
    · exact (authCookie_chars c h1).1
    · rcases List.mem_cons.1 h2 with rfl | h3
      · decide
      · exact encodeURIComponent_no_semi c h3
  rw [hsplit]
  rw [parseCookiesLoop_pair [] emptyCookies (by decide)
    fun c hc => ⟨(authCookie_chars c hc).2.1, (authCookie_chars c hc).2.2.1⟩]
  rfl

theorem lookupCookie_tokenHeader (t : Str) :
    lookupCookie (some (tokenHeader t)) AUTH_COOKIE = some (some t) := by
  unfold lookupCookie
  rw [parseCookies_tokenHeader]
  simp [setCookieVal]

theorem lookupCookie_some {h : Option Str} {k : Str} {w : Option Str}
    (hl : lookupCookie h k = some w) :
    ∃ m, parseCookies h = some m ∧ m k = w := by
  unfold lookupCookie at hl
  cases hp : parseCookies h with
  | none => rw [hp] at hl; simp at hl
  | some m =>
    rw [hp] at hl
    simp at hl
    exact ⟨m, rfl, hl⟩

theorem meHandler_no_header (secret : Str) (now : Nat) :
    meHandler secret now none = some ⟨401, .err missingCookieMsg, none⟩ := rfl

theorem meHandler_missing {secret : Str} {now : Nat} {h : Option Str}
    {m : CookieMap} (hm : parseCookies h = some m)
    (hk : m AUTH_COOKIE = none) :
    meHandler secret now h = some ⟨401, .err missingCookieMsg, none⟩ := by
  simp [meHandler, hm, hk]

theorem meHandler_empty_token {secret : Str} {now : Nat} {h : Option Str}
    {m : CookieMap} (hm : parseCookies h = some m)
    (hk : m AUTH_COOKIE = some []) :
    meHandler secret now h = some ⟨401, .err missingCookieMsg, none⟩ := by
  simp [meHandler, hm, hk]

theorem meHandler_token_fail {secret : Str} {now : Nat} {t : Str}
    (ht : t ≠ []) (hv : verifyToken secret now t = none) :
    meHandler secret now (some (tokenHeader t)) =
      some ⟨401, .err invalidSessionMsg, none⟩ := by
  simp [meHandler, parseCookies_tokenHeader, setCookieVal, ht, hv]

theorem meHandler_token_ok {secret : Str} {now : Nat} {t : Str} {c : Claims}
    (ht : t ≠ []) (hv : verifyToken secret now t = some c) :
    meHandler secret now (some (tokenHeader t)) =
      some ⟨200, .userBody c.sub c.username c.name, none⟩ := by
  simp [meHandler, parseCookies_tokenHeader, setCookieVal, ht, hv]

theorem parseCookies_some (s : Str) :
    parseCookies (some s) =
      if s = [] then some emptyCookies
      else parseCookiesLoop (splitCh ';' s) emptyCookies := rfl

/-! ## Claim theorems -/

/-- C1 (counterexample): contrary to the claim, `identify` with no session
cookie does not answer with the body "Invalid or expired session": it
answers 401 with the distinct body "Missing session cookie", so the four
failure outcomes are not all identical. -/
theorem c1_counterexample :
    meHandler ("s".toList) 0 none =
      some ⟨401, .err missingCookieMsg, none⟩ ∧
    missingCookieMsg ≠ invalidSessionMsg :=
  ⟨rfl, by decide⟩

/-- C1 (amended): a request with no cookie header, or whose cookies lack
the session cookie, yields 401 with body "Missing session cookie"; the
three token failures — a malformed token, a token signed with a different
secret, and an expired token — all yield the identical 401 with body
"Invalid or expired session" and are indistinguishable from one another,
but the missing-cookie case is distinguishable from them by its body. -/
theorem c1_failure_responses (secret : Str) (now : Nat) :
    meHandler secret now none = some ⟨401, .err missingCookieMsg, none⟩ ∧
    (∀ h, lookupCookie h AUTH_COOKIE = some none →
      meHandler secret now h = some ⟨401, .err missingCookieMsg, none⟩) ∧
    (∀ t, t ≠ [] → decodeToken t = none →
      meHandler secret now (some (tokenHeader t)) =
        some ⟨401, .err invalidSessionMsg, none⟩) ∧
    (∀ s2 c, s2 ≠ secret →
      meHandler secret now (some (tokenHeader (signClaims s2 c))) =
        some ⟨401, .err invalidSessionMsg, none⟩) ∧
    (∀ c : Claims, c.exp ≤ now →
      meHandler secret now (some (tokenHeader (signClaims secret c))) =
        some ⟨401, .err invalidSessionMsg, none⟩) := by
  refine ⟨meHandler_no_header secret now, ?_, ?_, ?_, ?_⟩
  · intro h hl
    obtain ⟨m, hm, hk⟩ := lookupCookie_some hl
    exact meHandler_missing hm hk
  · intro t ht hd
    exact meHandler_token_fail ht (verifyToken_malformed hd)
  · intro s2 c hs
    exact meHandler_token_fail (signClaims_ne_nil s2 c)
      (verifyToken_wrong_secret hs)
  · intro c hc
    exact meHandler_token_fail (signClaims_ne_nil secret c)
      (verifyToken_signClaims_expired hc)

theorem c1_failure_responses_witness :
    meHandler ("s".toList) 100 (some ("other=1".toList)) =
      some ⟨401, .err missingCookieMsg, none⟩ ∧
    meHandler ("s".toList) 100 (some (tokenHeader ("x".toList))) =
      some ⟨401, .err invalidSessionMsg, none⟩ ∧
    meHandler ("s".toList) 100 (some (tokenHeader (signClaims ("t".toList)
      (⟨"1".toList, "a".toList, none, 999, JWT_ISSUER, JWT_AUDIENCE⟩ : Claims)))) =
      some ⟨401, .err invalidSessionMsg, none⟩ ∧
    meHandler ("s".toList) 100 (some (tokenHeader (signClaims ("s".toList)
      (⟨"1".toList, "a".toList, none, 100, JWT_ISSUER, JWT_AUDIENCE⟩ : Claims)))) =
      some ⟨401, .err invalidSessionMsg, none⟩ :=
  ⟨(c1_failure_responses ("s".toList) 100).2.1 (some ("other=1".toList)) (by decide),
   (c1_failure_responses ("s".toList) 100).2.2.1 ("x".toList) (by decide) (by decide),
   (c1_failure_responses ("s".toList) 100).2.2.2.1 ("t".toList) _ (by decide),
   (c1_failure_responses ("s".toList) 100).2.2.2.2
     (⟨"1".toList, "a".toList, none, 100, JWT_ISSUER, JWT_AUDIENCE⟩ : Claims)
     (by decide)⟩

/-- C2 (counterexample): contrary to the claim, `parseCookies` is not
error-free — the header `a=%` raises a `URIError` from
`decodeURIComponent` (modelled by `none`) — and a pair with no `=` is not
skipped: the header `foo` yields a mapping in which `foo` is present with
the empty string as its value. -/
theorem c2_counterexample :
    parseCookies (some ("a=%".toList)) = none ∧
    lookupCookie (some ("foo".toList)) ("foo".toList) = some (some []) :=
  ⟨rfl, by decide⟩

/-- C2 (amended): `parseCookies` never raises on a header free of
percent-escapes (a malformed percent-escape such as in `a=%` raises
`URIError`); a pair with an empty name is skipped and the empty name never
appears in the result; a pair with no `=` is kept, mapping its (trimmed)
name to the empty string; and among duplicate names the last occurrence's
value wins. -/
theorem c2_parseCookies_behavior :
    (∀ s : Str, (∀ c ∈ s, c ≠ '%') → (parseCookies (some s)).isSome = true) ∧
    (∀ s : Str, ∀ m, parseCookies (some s) = some m → m [] = none) ∧
    (∀ k : Str, k ≠ [] → (∀ c ∈ k, c ≠ '=' ∧ c ≠ ';' ∧ jsSpace c = false) →
      lookupCookie (some k) k = some (some [])) ∧
    (∀ k v1 v2 : Str, k ≠ [] →
      (∀ c ∈ k, c ≠ '=' ∧ c ≠ ';' ∧ jsSpace c = false) →
      lookupCookie (some (k ++ '=' :: encodeURIComponent v1 ++ ';' ::
        (k ++ '=' :: encodeURIComponent v2))) k = some (some v2)) := by
  refine ⟨?_, ?_, ?_, ?_⟩
  · intro s hs
    rw [parseCookies_some]
    split_ifs with h0
    · rfl
    · exact parseCookiesLoop_isSome
        (fun p hp c hc => hs c (mem_of_mem_splitCh hp hc)) emptyCookies
  · intro s m hm
    rw [parseCookies_some] at hm
    split_ifs at hm with h0
    · obtain rfl : emptyCookies = m := Option.some.inj hm
      rfl
    · exact parseCookiesLoop_empty_absent hm rfl
  · intro k hk hkc
    have htrim : jsTrim k = k := jsTrim_nospace fun c hc => (hkc c hc).2.2
    have hsemi : splitCh ';' k = [k] := splitCh_nosep fun c hc => (hkc c hc).2.1
    have heq : splitCh '=' k = [k] := splitCh_nosep fun c hc => (hkc c hc).1
    unfold lookupCookie
    rw [parseCookies_some, if_neg hk, hsemi, parseCookiesLoop_cons, htrim, heq]
    simp only [List.headD_cons, List.tail_cons]
    rw [if_neg hk]
    have hjoin : joinSep ['='] ([] : List Str) = [] := rfl
    show Option.map _ (match decodeURIComponent (joinSep ['='] []) with
      | none => none
      | some v => parseCookiesLoop []
          (setCookieVal emptyCookies k v)) = some (some [])
    rw [hjoin]
    show Option.map _ (parseCookiesLoop []
      (setCookieVal emptyCookies k [])) = some (some [])
    simp [parseCookiesLoop, setCookieVal]
  · intro k v1 v2 hk hkc
    have hfirst : ∀ c ∈ k ++ '=' :: encodeURIComponent v1, c ≠ ';' := by
      intro c hc
      rcases List.mem_append.1 hc with h1 | h2
      · exact (hkc c h1).2.1
      · rcases List.mem_cons.1 h2 with rfl | h3
        · decide
        · exact encodeURIComponent_no_semi c h3
    have hsplit : splitCh ';' (k ++ '=' :: encodeURIComponent v1 ++ ';' ::
        (k ++ '=' :: encodeURIComponent v2)) =
        [k ++ '=' :: encodeURIComponent v1, k ++ '=' :: encodeURIComponent v2] := by
      rw [splitCh_append hfirst]
      rw [splitCh_nosep]
      intro c hc
      rcases List.mem_append.1 hc with h1 | h2
      · exact (hkc c h1).2.1
      · rcases List.mem_cons.1 h2 with rfl | h3
        · decide
        · exact encodeURIComponent_no_semi c h3
    have hne : k ++ '=' :: encodeURIComponent v1 ++ ';' ::
        (k ++ '=' :: encodeURIComponent v2) ≠ [] := by
      cases k with
      | nil => exact absurd rfl hk
      | cons a b => simp
    have hkchars : ∀ c ∈ k, c ≠ '=' ∧ jsSpace c = false :=
      fun c hc => ⟨(hkc c hc).1, (hkc c hc).2.2⟩
    unfold lookupCookie
    rw [parseCookies_some, if_neg hne, hsplit,
      parseCookiesLoop_pair [k ++ '=' :: encodeURIComponent v2]
        emptyCookies hk hkchars,
      parseCookiesLoop_pair [] (setCookieVal emptyCookies k v1) hk hkchars]
    simp [parseCookiesLoop, setCookieVal]

theorem c2_parseCookies_behavior_witness :
    (parseCookies (some ("a=b;c".toList))).isSome = true ∧
    (setCookieVal emptyCookies ("a".toList) ("b".toList)) [] = none ∧
    lookupCookie (some ("flag".toList)) ("flag".toList) = some (some []) ∧
    lookupCookie (some ("a".toList ++ '=' ::
      encodeURIComponent ("1".toList) ++ ';' :: ("a".toList ++ '=' ::
      encodeURIComponent ("2".toList)))) ("a".toList) =
      some (some ("2".toList)) :=
  ⟨c2_parseCookies_behavior.1 ("a=b;c".toList) (by decide),
   c2_parseCookies_behavior.2.1 ("a=b".toList)
     (setCookieVal emptyCookies ("a".toList) ("b".toList)) rfl,
   c2_parseCookies_behavior.2.2.1 ("flag".toList) (by decide) (by decide),
   c2_parseCookies_behavior.2.2.2 ("a".toList) ("1".toList) ("2".toList)
     (by decide) (by decide)⟩

/-- C3 (counterexample): the decode/encode round-trip does not hold for
every attribute list — an attribute whose name part equals the cookie name
(here, the attribute string `auth_token=evil`) shadows the encoded value,
so `parseCookies (buildCookie name value attrs)` maps the name to `evil`,
not to the original value `v`. -/
theorem c3_counterexample :
    lookupCookie (some (buildCookie ("auth_token".toList) ("v".toList)
      ["auth_token=evil".toList])) ("auth_token".toList) =
      some (some ("evil".toList)) ∧
    ("evil".toList : Str) ≠ "v".toList :=
  ⟨by decide, by decide⟩

/-- C3 (amended): for every nonempty cookie name containing no `;`, `=` or
whitespace, every value string — including values containing `;`, `=`, or
non-ASCII characters — and every attribute list whose attributes contain
no `;` or `%` and whose name part (the segment before the first `=`, after
trimming) differs from the cookie name, decoding the header produced by
`buildCookie` recovers the original value exactly. -/
theorem c3_roundtrip (name value : Str) (attrs : List Str)
    (hn : name ≠ [])
    (hnc : ∀ c ∈ name, c ≠ ';' ∧ c ≠ '=' ∧ jsSpace c = false)
    (ha : ∀ a ∈ attrs, (∀ c ∈ a, c ≠ ';' ∧ c ≠ '%') ∧
      (splitCh '=' (jsTrim a)).headD [] ≠ name) :
    lookupCookie (some (buildCookie name value attrs)) name =
      some (some value) := by
  have hfirst : ∀ c ∈ name ++ '=' :: encodeURIComponent value, c ≠ ';' := by
    intro c hc
    rcases List.mem_append.1 hc with h1 | h2
    · exact (hnc c h1).1
    · rcases List.mem_cons.1 h2 with rfl | h3
      · decide
      · exact encodeURIComponent_no_semi c h3
  have hsplit : splitCh ';' (buildCookie name value attrs) =
      (name ++ '=' :: encodeURIComponent value) :: attrs.map (' ' :: ·) :=
    joinSep_splitCh_semi _ attrs hfirst fun a haa c hc => ((ha a haa).1 c hc).1
  have hne : buildCookie name value attrs ≠ [] := by
    intro habs
    have : name = [] := by
      unfold buildCookie joinSep at habs
      cases attrs with
      | nil =>
        cases name with
        | nil => rfl
        | cons a b => simp at habs
      | cons x xs =>
        cases name with
        | nil => rfl
        | cons a b => simp at habs
    exact hn this
  have hkchars : ∀ c ∈ name, c ≠ '=' ∧ jsSpace c = false :=
    fun c hc => ⟨(hnc c hc).2.1, (hnc c hc).2.2⟩
  unfold lookupCookie
  rw [parseCookies_some, if_neg hne, hsplit,
    parseCookiesLoop_pair (attrs.map (' ' :: ·)) emptyCookies hn hkchars]
  have hsome : (parseCookiesLoop (attrs.map (' ' :: ·))
      (setCookieVal emptyCookies name value)).isSome = true := by
    apply parseCookiesLoop_isSome
    intro p hp c hc
    rcases List.mem_map.1 hp with ⟨a, haa, rfl⟩
    rcases List.mem_cons.1 hc with rfl | hc2
    · decide
    · exact ((ha a haa).1 c hc2).2
  obtain ⟨m, hm⟩ := Option.isSome_iff_exists.1 hsome
  rw [hm]
  have hmk : m name = setCookieVal emptyCookies name value name := by
    apply parseCookiesLoop_lookup hm
    intro p hp
    rcases List.mem_map.1 hp with ⟨a, haa, rfl⟩
    rw [jsTrim_cons_space]
    exact (ha a haa).2
  have hval : setCookieVal emptyCookies name value name = some value := by
    simp [setCookieVal]
  simp [hmk, hval]

theorem c3_roundtrip_witness :
    lookupCookie (some (buildCookie ("auth_token".toList) (";=%é~".toList)
      (cookieOptions ("production".toList)))) ("auth_token".toList) =
      some (some (";=%é~".toList)) :=
  c3_roundtrip ("auth_token".toList) (";=%é~".toList)
    (cookieOptions ("production".toList)) (by decide) (by decide) (by decide)

/-- C4: for every (username, password) pair matching a stored credential
record, `login` answers 200 with the user projection of that record and
sets the session cookie; presenting the issued token to `identify` (before
expiry) answers 200 with an identity whose id and username equal the id
and username of that record, so the two bodies agree on id and username. -/
theorem c4_login_identify (env secret : Str) (now now2 : Nat)
    (db : List UserRec) (u p : Str) (r : UserRec)
    (hu : u ≠ []) (hp : p ≠ [])
    (hfind : findUser db u = some r)
    (hpw : r.password_hash = argonHash p)
    (hfresh : now2 < now + JWT_EXPIRES_SECONDS) :
    loginHandler env secret now db (some ⟨some u, some p⟩) =
      ⟨200, .userBody r.id r.username r.name,
        some (buildCookie AUTH_COOKIE
          (signToken secret now ⟨r.id, r.username, r.name⟩)
          (cookieOptions env))⟩ ∧
    meHandler secret now2
      (some (tokenHeader (signToken secret now ⟨r.id, r.username, r.name⟩))) =
      some ⟨200, .userBody r.id r.username r.name, none⟩ := by
  constructor
  · simp [loginHandler, hu, hp, hfind, argon2Verify, hpw]
  · have hv : verifyToken secret now2
        (signToken secret now ⟨r.id, r.username, r.name⟩) =
        some ⟨r.id, r.username, r.name, now + JWT_EXPIRES_SECONDS,
          JWT_ISSUER, JWT_AUDIENCE⟩ := by
      rw [signToken_eq]
      exact verifyToken_signClaims_ok rfl rfl hfresh
    rw [signToken_eq] at hv ⊢
    exact meHandler_token_ok (signClaims_ne_nil _ _) hv

theorem c4_login_identify_witness :
    loginHandler ("development".toList) ("s".toList) 0
      [⟨"1".toList, "alice".toList, argonHash ("pw".toList), none⟩]
      (some ⟨some ("alice".toList), some ("pw".toList)⟩) =
      ⟨200, .userBody ("1".toList) ("alice".toList) none,
        some (buildCookie AUTH_COOKIE
          (signToken ("s".toList) 0 ⟨"1".toList, "alice".toList, none⟩)
          (cookieOptions ("development".toList)))⟩ ∧
    meHandler ("s".toList) 0
      (some (tokenHeader
        (signToken ("s".toList) 0 ⟨"1".toList, "alice".toList, none⟩))) =
      some ⟨200, .userBody ("1".toList) ("alice".toList) none, none⟩ :=
  c4_login_identify ("development".toList) ("s".toList) 0 0
    [⟨"1".toList, "alice".toList, argonHash ("pw".toList), none⟩]
    ("alice".toList) ("pw".toList)
    ⟨"1".toList, "alice".toList, argonHash ("pw".toList), none⟩
    (by decide) (by decide) (by decide) rfl (by decide)

/-- C5: the credential verification step (modelled from the spec, as the
argon2 library is external) returns true only for the stored hash of the
presented password, returns false on any mismatch or malformed hash
without throwing, and a false verification makes `login` answer the
generic 401 rather than a system fault. -/
theorem c5_verify_mismatch_generic :
    (∀ h p : Str, argon2Verify h p = true → h = argonHash p) ∧
    (∀ h p : Str, h ≠ argonHash p → argon2Verify h p = false) ∧
    (∀ env secret : Str, ∀ now : Nat, ∀ db : List UserRec, ∀ u p : Str,
      ∀ r : UserRec, u ≠ [] → p ≠ [] → findUser db u = some r →
      argon2Verify r.password_hash p = false →
      loginHandler env secret now db (some ⟨some u, some p⟩) =
        ⟨401, .err invalidCredMsg, none⟩) := by
  refine ⟨?_, ?_, ?_⟩
  · intro h p hv
    exact of_decide_eq_true hv
  · intro h p hne
    exact decide_eq_false hne
  · intro env secret now db u p r hu hp hfind hbad
    simp [loginHandler, hu, hp, hfind, hbad]

theorem c5_verify_mismatch_generic_witness :
    argon2Verify ("x".toList) ("y".toList) = false ∧
    loginHandler ("development".toList) ("s".toList) 0
      [⟨"1".toList, "alice".toList, argonHash ("pw".toList), none⟩]
      (some ⟨some ("alice".toList), some ("wrong".toList)⟩) =
      ⟨401, .err invalidCredMsg, none⟩ :=
  ⟨c5_verify_mismatch_generic.2.1 ("x".toList) ("y".toList) (by decide),
   c5_verify_mismatch_generic.2.2 ("development".toList) ("s".toList) 0
     [⟨"1".toList, "alice".toList, argonHash ("pw".toList), none⟩]
     ("alice".toList) ("wrong".toList)
     ⟨"1".toList, "alice".toList, argonHash ("pw".toList), none⟩
     (by decide) (by decide) (by decide) (by decide)⟩

/-- C6: the 401 produced when the username has no stored record equals,
byte for byte (same status, same body, no Set-Cookie), the 401 produced
when the record exists but the password fails verification, so the login
response does not reveal whether the username exists. -/
theorem c6_login_401_indistinguishable (env env2 secret secret2 : Str)
    (now now2 : Nat) (db db2 : List UserRec) (u u2 p p2 : Str) (r : UserRec)
    (hu : u ≠ []) (hp : p ≠ []) (hu2 : u2 ≠ []) (hp2 : p2 ≠ [])
    (habsent : findUser db u = none)
    (hfound : findUser db2 u2 = some r)
    (hbad : argon2Verify r.password_hash p2 = false) :
    loginHandler env secret now db (some ⟨some u, some p⟩) =
      ⟨401, .err invalidCredMsg, none⟩ ∧
    loginHandler env2 secret2 now2 db2 (some ⟨some u2, some p2⟩) =
      ⟨401, .err invalidCredMsg, none⟩ ∧
    loginHandler env secret now db (some ⟨some u, some p⟩) =
      loginHandler env2 secret2 now2 db2 (some ⟨some u2, some p2⟩) := by
  have h1 : loginHandler env secret now db (some ⟨some u, some p⟩) =
      ⟨401, .err invalidCredMsg, none⟩ := by
    simp [loginHandler, hu, hp, habsent]
  have h2 : loginHandler env2 secret2 now2 db2 (some ⟨some u2, some p2⟩) =
      ⟨401, .err invalidCredMsg, none⟩ := by
    simp [loginHandler, hu2, hp2, hfound, hbad]
  exact ⟨h1, h2, by rw [h1, h2]⟩

theorem c6_login_401_indistinguishable_witness :
    loginHandler ("development".toList) ("s".toList) 0 []
      (some ⟨some ("bob".toList), some ("x".toList)⟩) =
      loginHandler ("development".toList) ("s".toList) 0
        [⟨"1".toList, "alice".toList, argonHash ("pw".toList), none⟩]
        (some ⟨some ("alice".toList), some ("wrong".toList)⟩) :=
  (c6_login_401_indistinguishable ("development".toList) ("development".toList)
    ("s".toList) ("s".toList) 0 0 []
    [⟨"1".toList, "alice".toList, argonHash ("pw".toList), none⟩]
    ("bob".toList) ("alice".toList) ("x".toList) ("wrong".toList)
    ⟨"1".toList, "alice".toList, argonHash ("pw".toList), none⟩
    (by decide) (by decide) (by decide) (by decide)
    (by decide) (by decide) (by decide)).2.2

/-- C7: a login request in which username or password is missing or empty
is answered 400 with an error body, and the response is a fixed constant
independent of the credential store, so no store lookup or password
verification influences it. -/
theorem c7_missing_fields (env secret : Str) (now : Nat) (db : List UserRec)
    (b : Option LoginBody)
    (hmiss : (b.getD ⟨none, none⟩).username = none ∨
             (b.getD ⟨none, none⟩).username = some [] ∨
             (b.getD ⟨none, none⟩).password = none ∨
             (b.getD ⟨none, none⟩).password = some []) :
    loginHandler env secret now db b = ⟨400, .err requiredMsg, none⟩ ∧
    ∀ db2 : List UserRec, loginHandler env secret now db b =
      loginHandler env secret now db2 b := by
  have hmain : ∀ db0 : List UserRec,
      loginHandler env secret now db0 b = ⟨400, .err requiredMsg, none⟩ := by
    intro db0
    cases b with
    | none => rfl
    | some lb =>
      obtain ⟨ou, op⟩ := lb
      cases ou with
      | none => rfl
      | some u =>
        cases op with
        | none => rfl
        | some p =>
          simp only [Option.getD_some] at hmiss
          rcases hmiss with h | h | h | h
          · exact absurd h (by simp)
          · obtain rfl : u = [] := Option.some.inj h
            simp [loginHandler]
          · exact absurd h (by simp)
          · obtain rfl : p = [] := Option.some.inj h
            simp [loginHandler]
  exact ⟨hmain db, fun db2 => by rw [hmain db, hmain db2]⟩

theorem c7_missing_fields_witness :
    loginHandler ("development".toList) ("s".toList) 0
      [⟨"1".toList, "alice".toList, argonHash ("pw".toList), none⟩]
      (some ⟨some ("alice".toList), some []⟩) =
      ⟨400, .err requiredMsg, none⟩ :=
  (c7_missing_fields ("development".toList) ("s".toList) 0
    [⟨"1".toList, "alice".toList, argonHash ("pw".toList), none⟩]
    (some ⟨some ("alice".toList), some []⟩) (by decide)).1

/-- C8: every Set-Cookie header the service emits is built by
`buildCookie` over the session cookie name with `cookieOptions` (login)
or `clearCookieOptions` (logout); both option lists always carry
`HttpOnly`, carry `Secure` exactly when the environment is `production`,
and carry `Max-Age=86400` on login versus `Max-Age=0` on logout. -/
theorem c8_cookie_attributes (env secret : Str) (now : Nat)
    (db : List UserRec) (b : Option LoginBody) :
    (∀ s, (loginHandler env secret now db b).setCookie = some s →
      ∃ t, s = buildCookie AUTH_COOKIE t (cookieOptions env)) ∧
    (logoutHandler env).setCookie =
      some (buildCookie AUTH_COOKIE [] (clearCookieOptions env)) ∧
    "HttpOnly".toList ∈ cookieOptions env ∧
    "HttpOnly".toList ∈ clearCookieOptions env ∧
    ("Secure".toList ∈ cookieOptions env ↔ env = NODE_ENV_PRODUCTION) ∧
    ("Secure".toList ∈ clearCookieOptions env ↔ env = NODE_ENV_PRODUCTION) ∧
    "Max-Age=86400".toList ∈ cookieOptions env ∧
    "Max-Age=86400".toList ∉ clearCookieOptions env ∧
    "Max-Age=0".toList ∈ clearCookieOptions env ∧
    "Max-Age=0".toList ∉ cookieOptions env := by
  refine ⟨?_, rfl, ?_, ?_, ?_, ?_, ?_, ?_, ?_, ?_⟩
  · intro s hs
    unfold loginHandler at hs
    rcases b with _ | ⟨ou, op⟩
    · simp at hs
    · rcases ou with _ | u
      · simp at hs
      · rcases op with _ | p
        · simp at hs
        · simp only [Option.getD_some] at hs
          split_ifs at hs with hup
          cases hfind : findUser db u with
          | none => rw [hfind] at hs; exact Option.noConfusion hs
          | some user =>
            rw [hfind] at hs
            have hs2 : (if argon2Verify user.password_hash p = true then
                (⟨200, .userBody user.id user.username user.name,
                  some (buildCookie AUTH_COOKIE
                    (signToken secret now ⟨user.id, user.username, user.name⟩)
                    (cookieOptions env))⟩ : Resp)
              else ⟨401, .err invalidCredMsg, none⟩).setCookie = some s := hs
            split_ifs at hs2 with hverify
            exact ⟨signToken secret now ⟨user.id, user.username, user.name⟩,
              (Option.some.inj hs2).symm⟩
  all_goals by_cases henv : env = NODE_ENV_PRODUCTION <;>
    simp [cookieOptions, clearCookieOptions, henv]

theorem c8_cookie_attributes_witness :
    ∃ t, buildCookie AUTH_COOKIE
        (signToken ("s".toList) 0 ⟨"1".toList, "alice".toList, none⟩)
        (cookieOptions ("development".toList)) =
      buildCookie AUTH_COOKIE t (cookieOptions ("development".toList)) :=
  (c8_cookie_attributes ("development".toList) ("s".toList) 0
    [⟨"1".toList, "alice".toList, argonHash ("pw".toList), none⟩]
    (some ⟨some ("alice".toList), some ("pw".toList)⟩)).1 _ rfl

/-- C9: a signed token whose `exp` claim is at or before the current time
fails verification and makes `identify` answer 401 "Invalid or expired
session" (the boundary case `now = exp` fails), and any token that
verification accepts has its expiry strictly in the future. -/
theorem c9_expiry_boundary (secret : Str) (now : Nat) (c : Claims) :
    (c.exp ≤ now → verifyToken secret now (signClaims secret c) = none) ∧
    (c.exp ≤ now →
      meHandler secret now (some (tokenHeader (signClaims secret c))) =
        some ⟨401, .err invalidSessionMsg, none⟩) ∧
    (∀ t : Str, ∀ c2 : Claims, verifyToken secret now t = some c2 →
      now < c2.exp) :=
  ⟨fun hc => verifyToken_signClaims_expired hc,
   fun hc => meHandler_token_fail (signClaims_ne_nil secret c)
     (verifyToken_signClaims_expired hc),
   fun _ _ h => verifyToken_exp h⟩

theorem c9_expiry_boundary_witness :
    verifyToken ("s".toList) 100 (signClaims ("s".toList)
      (⟨"1".toList, "a".toList, none, 100, JWT_ISSUER, JWT_AUDIENCE⟩ : Claims)) =
      none ∧
    meHandler ("s".toList) 101 (some (tokenHeader (signClaims ("s".toList)
      (⟨"1".toList, "a".toList, none, 100, JWT_ISSUER, JWT_AUDIENCE⟩ : Claims)))) =
      some ⟨401, .err invalidSessionMsg, none⟩ ∧
    (0 : Nat) <
      (⟨"1".toList, "a".toList, none, 100, JWT_ISSUER, JWT_AUDIENCE⟩ : Claims).exp :=
  ⟨(c9_expiry_boundary ("s".toList) 100
      ⟨"1".toList, "a".toList, none, 100, JWT_ISSUER, JWT_AUDIENCE⟩).1
      (by decide),
   (c9_expiry_boundary ("s".toList) 101
      ⟨"1".toList, "a".toList, none, 100, JWT_ISSUER, JWT_AUDIENCE⟩).2.1
      (by decide),
   (c9_expiry_boundary ("s".toList) 0
      ⟨"1".toList, "a".toList, none, 100, JWT_ISSUER, JWT_AUDIENCE⟩).2.2
      (signClaims ("s".toList)
        ⟨"1".toList, "a".toList, none, 100, JWT_ISSUER, JWT_AUDIENCE⟩)
      ⟨"1".toList, "a".toList, none, 100, JWT_ISSUER, JWT_AUDIENCE⟩
      (by decide)⟩

/-- C10: a cookie header carrying the session cookie with an empty value
(`auth_token=`, exactly what the cleared logout cookie carries) is treated
as a missing cookie: `identify` answers 401 "Missing session cookie", and
the response does not depend on the secret or the clock, so no token
verification is attempted. -/
theorem c10_empty_cookie_value (secret secret2 : Str) (now now2 : Nat)
    (h : Option Str) (hl : lookupCookie h AUTH_COOKIE = some (some [])) :
    meHandler secret now h = some ⟨401, .err missingCookieMsg, none⟩ ∧
    meHandler secret now h = meHandler secret2 now2 h := by
  obtain ⟨m, hm, hk⟩ := lookupCookie_some hl
  exact ⟨meHandler_empty_token hm hk,
    by rw [@meHandler_empty_token secret now h m hm hk,
      @meHandler_empty_token secret2 now2 h m hm hk]⟩

theorem c10_empty_cookie_value_witness :
    meHandler ("s".toList) 0 (some ("auth_token=".toList)) =
      some ⟨401, .err missingCookieMsg, none⟩ :=
  (c10_empty_cookie_value ("s".toList) ("t".toList) 0 99
    (some ("auth_token=".toList)) (by decide)).1
